import Mathlib

/-!
Verification development for the dexter financial-search routing layer.

We give a shallow embedding of the two source files
`src/tools/finance/financial-search.ts` and `src/tools/finance/fundamentals.ts`.
JavaScript values flowing through the executor (tool arguments, parsed result
envelopes, merged response data) are modelled by the inductive `Json`, which
includes an `jundefined` constructor so that JavaScript property access on a
missing key, and JavaScript truthiness, can be modelled faithfully.
Asynchronous calls that can throw are modelled with `Except String`; the
`Promise.all` fan-out is a pure `List.map`, which captures the source's
guarantee that each item is computed independently of its siblings.
External collaborators that are not part of this repository's sources
(`callLlm`, `callApi`) are taken as function parameters, and the missing
helper `formatToolResult` (from `tools/types.ts`, not under the provided
sources) is modelled from the spec.
-/

/-- JavaScript values as seen by the executor: the result of `JSON.parse`
plus the `undefined` value produced by access to a missing property. -/
inductive Json where
  | jnull
  | jundefined
  | jbool (b : Bool)
  | jnum (n : Int)
  | jstr (s : String)
  | jarr (elems : List Json)
  | jobj (fields : List (String × Json))
deriving Inhabited

namespace Json

/-- JavaScript truthiness of a value (`if (v)`, `v ? a : b`, `v || d`). -/
def truthy : Json → Bool
  | .jnull => false
  | .jundefined => false
  | .jbool b => b
  | .jnum n => n != 0
  | .jstr s => s != ""
  | .jarr _ => true
  | .jobj _ => true

/-- JavaScript string coercion, as performed by a template literal such as
the ticker interpolation in the merge key. -/
def jsString : Json → String
  | .jnull => "null"
  | .jundefined => "undefined"
  | .jbool b => if b then "true" else "false"
  | .jnum n => toString n
  | .jstr s => s
  | .jarr elems => String.intercalate "," (jsStringList elems)
  | .jobj _ => "[object Object]"
where
  /-- String coercion of each element of an array, as `Array.prototype.toString`. -/
  jsStringList : List Json → List String
  | [] => []
  | x :: xs => jsString x :: jsStringList xs

/-- Property read `obj[k]` on an association list of fields: the LAST
binding wins, matching JavaScript object assignment and `JSON.parse`
duplicate-key semantics; a missing key reads as `undefined`. -/
def fieldsGet (fields : List (String × Json)) (k : String) : Json :=
  match fields.reverse.find? (fun p => p.1 == k) with
  | some p => p.2
  | none => .jundefined

/-- Property read `v[k]` on a value; non-objects yield `undefined`
(no such read is reached on a non-object in the code paths we model). -/
def objGet : Json → String → Json
  | .jobj fields, k => fieldsGet fields k
  | _, _ => .jundefined

/-- Property assignment `obj[k] = v` on an association list of fields,
recorded as a final binding (reads use last-binding-wins). -/
def objSet (fields : List (String × Json)) (k : String) (v : Json) :
    List (String × Json) :=
  fields ++ [(k, v)]

/-- Whether an association list of fields has a binding for `k`
(the JavaScript `k in obj` / `Object.keys` membership). -/
def fieldsHasKey (fields : List (String × Json)) (k : String) : Bool :=
  fields.any (fun p => p.1 == k)

/-- One flattening step of `Array.prototype.flatMap`: an array contributes
its elements, any other value contributes itself. -/
def flattenOne : Json → List Json
  | .jarr elems => elems
  | v => [v]

end Json

/-- Modelled from the spec: `formatToolResult` from `tools/types.ts` is not
among the provided sources. Per spec section 6, every adapter and the
aggregator return the envelope `\x7b data, sourceUrls \x7d`; we keep it as a
structure rather than its serialized JSON string, since the executor
re-parses the string immediately. -/
structure Envelope where
  data : Json
  sourceUrls : List Json

/-- Modelled from the spec: wraps a payload and a list of source URLs into
the uniform response envelope. -/
def formatToolResult (data : Json) (sourceUrls : List Json) : Envelope :=
  ⟨data, sourceUrls⟩

/-! ## fundamentals.ts -/

/-- Input validated by `FinancialStatementsInputSchema`: ticker string,
period enumeration value, and limit (defaulted to 10 by the schema). -/
structure FinancialStatementsInput where
  ticker : String
  period : String
  limit : Int
deriving Repr, DecidableEq

/-- Translation of `mapPeriod` from fundamentals.ts: FMP uses different
period values; `ttm` falls back to `annual`. -/
def mapPeriod (period : String) : String :=
  if period == "quarterly" then "quarter"
  else if period == "annual" then "annual"
  else "annual"

/-- Query parameters of one upstream call made through `callApi`. -/
structure ApiParams where
  symbol : String
  period : String
  limit : Int
deriving Repr, DecidableEq

/-- Result of one successful upstream call: payload and the request URL. -/
structure ApiResponse where
  data : Json
  url : String

/-- Translation of `getAllFinancialStatements.func` from fundamentals.ts.
`callApi` (from `api.ts`, an external collaborator) is a parameter; a
thrown upstream error is an `Except.error`, and `Promise.all` rejects the
whole composite if any sub-call rejects. -/
def getAllFinancialStatements
    (callApi : String → ApiParams → Except String ApiResponse)
    (input : FinancialStatementsInput) : Except String Envelope := do
  let periodParam := mapPeriod input.period
  let income ← callApi "/income-statement" ⟨input.ticker, periodParam, input.limit⟩
  let balance ← callApi "/balance-sheet-statement" ⟨input.ticker, periodParam, input.limit⟩
  let cashflow ← callApi "/cash-flow-statement" ⟨input.ticker, periodParam, input.limit⟩
  pure (formatToolResult
    (Json.jobj [("income_statements", income.data),
                ("balance_sheets", balance.data),
                ("cash_flow_statements", cashflow.data)])
    [Json.jstr income.url])

/-! ## financial-search.ts -/

/-- A registered tool as the executor sees it: a name, and the effect of
`await tool.invoke(args)` followed by `JSON.parse` of the (stringified)
result. A throw from the invocation or from the parse lands in the same
`catch`, so both are one `Except.error`. -/
structure Tool where
  name : String
  invoke : Json → Except String Json

/-- One structured tool call produced by the routing LLM. -/
structure ToolCall where
  name : String
  args : Json

/-- Translation of `FINANCE_TOOL_MAP.get`: the map is built by
`new Map(FINANCE_TOOLS.map(t => [t.name, t]))`, so for a duplicated name
the later entry wins; lookup therefore searches the reversed list. -/
def FINANCE_TOOL_MAP_get (tools : List Tool) (name : String) : Option Tool :=
  tools.reverse.find? (fun t => t.name == name)

/-- One per-call result record built inside the `Promise.all` callback. -/
structure ExecutionResult where
  tool : String
  args : Json
  data : Json
  sourceUrls : Json
  error : Option String

/-- Translation of the `Promise.all` callback in `createFinancialSearch`:
look the tool up by name (unknown name throws into the catch without any
invocation), invoke it, parse the envelope, and normalize a missing or
falsy `sourceUrls` field to `[]` via `parsed.sourceUrls || []`. -/
def execToolCall (tools : List Tool) (tc : ToolCall) : ExecutionResult :=
  match FINANCE_TOOL_MAP_get tools tc.name with
  | none =>
      { tool := tc.name, args := tc.args, data := Json.jnull,
        sourceUrls := Json.jarr [],
        error := some ("Tool '" ++ tc.name ++ "' not found") }
  | some t =>
      match t.invoke tc.args with
      | .error e =>
          { tool := tc.name, args := tc.args, data := Json.jnull,
            sourceUrls := Json.jarr [], error := some e }
      | .ok parsed =>
          { tool := tc.name, args := tc.args,
            data := parsed.objGet "data",
            sourceUrls :=
              (let v := parsed.objGet "sourceUrls";
               if v.truthy then v else Json.jarr []),
            error := none }

/-- Merge key for one successful result:
`ticker ? tool_ticker : tool`, with `ticker = result.args.ticker`. -/
def resultKey (r : ExecutionResult) : String :=
  let ticker := r.args.objGet "ticker"
  if ticker.truthy then r.tool ++ "_" ++ ticker.jsString else r.tool

/-- The per-failure record placed into the `_errors` list. -/
def errorEntry (r : ExecutionResult) : Json :=
  Json.jobj [("tool", Json.jstr r.tool), ("args", r.args),
             ("error", Json.jstr (r.error.getD ""))]

/-- Translation of the merge step of `createFinancialSearch`: partition by
error, concatenate every result's `sourceUrls` with `flatMap`, key each
successful payload, and attach `_errors` when any failure exists. -/
def aggregateResults (results : List ExecutionResult) : Envelope :=
  let successfulResults := results.filter (fun r => r.error.isNone)
  let failedResults := results.filter (fun r => r.error.isSome)
  let allUrls := results.flatMap (fun r => r.sourceUrls.flattenOne)
  let merged := successfulResults.foldl
    (fun acc r => Json.objSet acc (resultKey r) r.data) []
  let combinedData :=
    if failedResults.length > 0 then
      Json.objSet merged "_errors" (Json.jarr (failedResults.map errorEntry))
    else merged
  formatToolResult (Json.jobj combinedData) allUrls

/-- Outcome of `callLlm`: either the call throws, or it returns an
`AIMessage` whose `tool_calls` field may be absent. -/
inductive LlmOutcome where
  | failure (error : String)
  | message (tool_calls : Option (List ToolCall))

/-- Translation of the `func` body of `createFinancialSearch`: a thrown
LLM call yields a single top-level error envelope; an absent or empty
`tool_calls` list yields the distinct no-tools error envelope; otherwise
every tool call is executed and the results are merged. -/
def financialSearch (tools : List Tool) (llm : String → LlmOutcome)
    (query : String) : Envelope :=
  match llm query with
  | .failure e =>
      formatToolResult (Json.jobj [("error", Json.jstr ("LLM call failed: " ++ e))]) []
  | .message tcs =>
      let toolCalls := tcs.getD []
      if toolCalls.isEmpty then
        formatToolResult (Json.jobj [("error", Json.jstr "No tools selected for query")]) []
      else
        aggregateResults (toolCalls.map (execToolCall tools))

/-- Whether a value is an object with a binding for `k`
(the membership test behind `Object.keys(combinedData)`). -/
def Json.hasKey : Json → String → Bool
  | .jobj fields, k => Json.fieldsHasKey fields k
  | _, _ => false

/-! ## Helper lemmas -/

/-- String append is cancellative on the left. -/
theorem string_append_left_inj (a s t : String) (h : a ++ s = a ++ t) : s = t := by
  apply String.ext
  have hd := congrArg String.data h
  simp [String.data_append] at hd
  exact hd

/-- A key of the form `tool ++ "_" ++ ticker` with a nonempty tool name is
never the reserved key `"_errors"`. -/
theorem string_underscore_key_ne (a b : String) (ha : a ≠ "") :
    a ++ "_" ++ b ≠ "_errors" := by
  intro h
  have hd := congrArg String.data h
  simp [String.data_append] at hd
  have hne : a.data ≠ [] := by
    intro h0; exact ha (String.ext (by simp [h0]))
  obtain ⟨c, cs, hcs⟩ := List.exists_cons_of_ne_nil hne
  rw [hcs] at hd
  have hmem : '_' ∈ cs ++ '_' :: b.data := by simp
  injection hd with h1 h2
  rw [show cs.append ('_' :: b.data) = cs ++ '_' :: b.data from rfl] at h2
  rw [h2] at hmem
  simp at hmem

/-! ## Claim theorems -/

/-- C4: the period mapping is total on the period enumeration:
`quarterly ↦ quarter`, `annual ↦ annual`, and `ttm` falls back to `annual`;
every enumeration value maps to exactly one defined upstream value. -/
theorem mapPeriod_total_on_enum :
    mapPeriod "quarterly" = "quarter" ∧ mapPeriod "annual" = "annual" ∧
    mapPeriod "ttm" = "annual" ∧
    ∀ p, p ∈ (["annual", "quarterly", "ttm"] : List String) →
      mapPeriod p ∈ (["annual", "quarter"] : List String) := by
  refine ⟨rfl, rfl, rfl, ?_⟩
  intro p hp
  simp only [List.mem_cons, List.not_mem_nil, or_false] at hp
  rcases hp with h | h | h
  all_goals subst h; simp [mapPeriod]

/-- Witness for C4 at the fallback value `ttm`. -/
theorem mapPeriod_total_on_enum_witness :
    mapPeriod "ttm" ∈ (["annual", "quarter"] : List String) :=
  mapPeriod_total_on_enum.2.2.2 "ttm" (by simp)

/-- C5: for every input, `getAllFinancialStatements` issues the three
upstream statement calls, merges their payloads under the three distinct
labels `income_statements`, `balance_sheets` and `cash_flow_statements`,
and returns as `sourceUrls` only the URL of the income-statement call,
discarding the other two URLs. -/
theorem getAllFinancialStatements_merge
    (callApi : String → ApiParams → Except String ApiResponse)
    (input : FinancialStatementsInput) (income balance cashflow : ApiResponse)
    (hi : callApi "/income-statement"
        ⟨input.ticker, mapPeriod input.period, input.limit⟩ = .ok income)
    (hb : callApi "/balance-sheet-statement"
        ⟨input.ticker, mapPeriod input.period, input.limit⟩ = .ok balance)
    (hc : callApi "/cash-flow-statement"
        ⟨input.ticker, mapPeriod input.period, input.limit⟩ = .ok cashflow) :
    getAllFinancialStatements callApi input =
      .ok ⟨Json.jobj [("income_statements", income.data),
                      ("balance_sheets", balance.data),
                      ("cash_flow_statements", cashflow.data)],
           [Json.jstr income.url]⟩ ∧
    ("income_statements" : String) ≠ "balance_sheets" ∧
    ("income_statements" : String) ≠ "cash_flow_statements" ∧
    ("balance_sheets" : String) ≠ "cash_flow_statements" := by
  refine ⟨?_, by simp, by simp, by simp⟩
  simp [getAllFinancialStatements, hi, hb, hc, Except.bind, Bind.bind,
        Except.pure, Pure.pure, formatToolResult]

/-- Witness for C5 on a concrete upstream function and input. -/
theorem getAllFinancialStatements_merge_witness :
    getAllFinancialStatements
      (fun path _ => .ok ⟨Json.jstr path, "url:" ++ path⟩)
      ⟨"AAPL", "annual", 10⟩ =
    .ok ⟨Json.jobj [("income_statements", Json.jstr "/income-statement"),
                    ("balance_sheets", Json.jstr "/balance-sheet-statement"),
                    ("cash_flow_statements", Json.jstr "/cash-flow-statement")],
         [Json.jstr "url:/income-statement"]⟩ :=
  (getAllFinancialStatements_merge
    (fun path _ => .ok ⟨Json.jstr path, "url:" ++ path⟩)
    ⟨"AAPL", "annual", 10⟩ _ _ _ rfl rfl rfl).1

/-- C1: for every tool call whose name resolves in the registry and whose
invocation succeeds with a parseable envelope, the executor records
`error: null` and `data` equal to the `data` field of the parsed
envelope. -/
theorem execToolCall_registered_success
    (tools : List Tool) (tc : ToolCall) (t : Tool) (parsed : Json)
    (hfind : FINANCE_TOOL_MAP_get tools tc.name = some t)
    (hinv : t.invoke tc.args = .ok parsed) :
    (execToolCall tools tc).error = none ∧
    (execToolCall tools tc).data = parsed.objGet "data" := by
  simp [execToolCall, hfind, hinv]

/-- Witness for C1 on a one-tool registry whose invocation returns the
envelope `\x7bdata: 7, sourceUrls: []\x7d`. -/
theorem execToolCall_registered_success_witness :
    (execToolCall
      [⟨"get_prices", fun _ =>
        .ok (Json.jobj [("data", Json.jnum 7), ("sourceUrls", Json.jarr [])])⟩]
      ⟨"get_prices", Json.jobj []⟩).error = none ∧
    (execToolCall
      [⟨"get_prices", fun _ =>
        .ok (Json.jobj [("data", Json.jnum 7), ("sourceUrls", Json.jarr [])])⟩]
      ⟨"get_prices", Json.jobj []⟩).data = Json.jnum 7 := by
  have h := execToolCall_registered_success
    [⟨"get_prices", fun _ =>
      .ok (Json.jobj [("data", Json.jnum 7), ("sourceUrls", Json.jarr [])])⟩]
    ⟨"get_prices", Json.jobj []⟩
    ⟨"get_prices", fun _ =>
      .ok (Json.jobj [("data", Json.jnum 7), ("sourceUrls", Json.jarr [])])⟩
    (Json.jobj [("data", Json.jnum 7), ("sourceUrls", Json.jarr [])])
    rfl rfl
  exact ⟨h.1, h.2.trans rfl⟩

/-- C2: a tool call whose name is not in the registry yields exactly the
per-item error record, with `error` set and `data: null`, built without any
invocation; and any other call in the same batch whose invocation succeeds
still yields `error: null`. -/
theorem execToolCall_unknown_tool
    (tools : List Tool) (tc : ToolCall)
    (hfind : FINANCE_TOOL_MAP_get tools tc.name = none) :
    execToolCall tools tc =
      { tool := tc.name, args := tc.args, data := Json.jnull,
        sourceUrls := Json.jarr [],
        error := some ("Tool '" ++ tc.name ++ "' not found") } ∧
    (∀ tc' : ToolCall, ∀ t : Tool, ∀ parsed : Json,
      FINANCE_TOOL_MAP_get tools tc'.name = some t →
      t.invoke tc'.args = .ok parsed →
      (execToolCall tools tc').error = none) := by
  constructor
  · simp [execToolCall, hfind]
  · intro tc' t parsed hfind' hinv'
    simp [execToolCall, hfind', hinv']

/-- Witness for C2: a batch over a one-tool registry in which the unknown
call errors and the sibling call still succeeds. -/
theorem execToolCall_unknown_tool_witness :
    execToolCall
      [⟨"get_prices", fun _ =>
        .ok (Json.jobj [("data", Json.jnum 7), ("sourceUrls", Json.jarr [])])⟩]
      ⟨"nope", Json.jobj []⟩ =
      { tool := "nope", args := Json.jobj [], data := Json.jnull,
        sourceUrls := Json.jarr [],
        error := some "Tool 'nope' not found" } ∧
    (execToolCall
      [⟨"get_prices", fun _ =>
        .ok (Json.jobj [("data", Json.jnum 7), ("sourceUrls", Json.jarr [])])⟩]
      ⟨"get_prices", Json.jobj []⟩).error = none := by
  have h := execToolCall_unknown_tool
    [⟨"get_prices", fun _ =>
      .ok (Json.jobj [("data", Json.jnum 7), ("sourceUrls", Json.jarr [])])⟩]
    ⟨"nope", Json.jobj []⟩ rfl
  exact ⟨h.1, h.2 ⟨"get_prices", Json.jobj []⟩
    ⟨"get_prices", fun _ =>
      .ok (Json.jobj [("data", Json.jnum 7), ("sourceUrls", Json.jarr [])])⟩
    (Json.jobj [("data", Json.jnum 7), ("sourceUrls", Json.jarr [])]) rfl rfl⟩

/-- C3 counterexample: a successful result whose `ticker` argument is
present but equal to the empty string is keyed by the bare tool name, not
by `toolName_ticker`, so key choice is not decided by key presence. -/
theorem resultKey_present_empty_ticker_counterexample :
    resultKey { tool := "get_prices",
                args := Json.jobj [("ticker", Json.jstr "")],
                data := Json.jnull, sourceUrls := Json.jarr [],
                error := none } = "get_prices" ∧
    ("get_prices" : String) ≠ "get_prices_" := by
  exact ⟨rfl, by simp⟩

/-- C3 (amended): the merge key is the bare tool name when no `ticker`
argument is present (and also when the `ticker` argument is falsy, e.g.
the empty string), and `toolName_ticker` when a truthy `ticker` argument
is present; two successful results from the same tool with different
truthy tickers get distinct keys, and a later entry with a colliding key
overwrites the earlier one. -/
theorem resultKey_merge_scheme
    (r r' : ExecutionResult) (s s' : String)
    (htool : r'.tool = r.tool)
    (hs : r.args.objGet "ticker" = Json.jstr s)
    (hs' : r'.args.objGet "ticker" = Json.jstr s')
    (hne : s ≠ "") (hne' : s' ≠ "") (hss : s ≠ s') :
    resultKey r = r.tool ++ "_" ++ s ∧
    resultKey r' = r.tool ++ "_" ++ s' ∧
    resultKey r ≠ resultKey r' ∧
    (∀ r0 : ExecutionResult, r0.args.objGet "ticker" = Json.jundefined →
      resultKey r0 = r0.tool) ∧
    (∀ fields : List (String × Json), ∀ k : String, ∀ v : Json,
      Json.fieldsGet (Json.objSet fields k v) k = v) := by
  have h1 : resultKey r = r.tool ++ "_" ++ s := by
    simp [resultKey, hs, Json.truthy, Json.jsString, hne]
  have h2 : resultKey r' = r.tool ++ "_" ++ s' := by
    rw [← htool]
    simp [resultKey, hs', Json.truthy, Json.jsString, hne']
  refine ⟨h1, h2, ?_, ?_, ?_⟩
  · rw [h1, h2]
    intro h
    exact hss (string_append_left_inj (r.tool ++ "_") s s' h)
  · intro r0 h0
    simp [resultKey, h0, Json.truthy]
  · intro fields k v
    simp [Json.fieldsGet, Json.objSet, List.find?]

/-- Witness for C3 (amended): `get_prices` for `AAPL` and for `TSLA`
produce the two distinct keys of the spec's example. -/
theorem resultKey_merge_scheme_witness :
    resultKey { tool := "get_prices",
                args := Json.jobj [("ticker", Json.jstr "AAPL")],
                data := Json.jnull, sourceUrls := Json.jarr [],
                error := none } = "get_prices_AAPL" ∧
    resultKey { tool := "get_prices",
                args := Json.jobj [("ticker", Json.jstr "TSLA")],
                data := Json.jnull, sourceUrls := Json.jarr [],
                error := none } = "get_prices_TSLA" ∧
    resultKey { tool := "get_prices",
                args := Json.jobj [("ticker", Json.jstr "AAPL")],
                data := Json.jnull, sourceUrls := Json.jarr [],
                error := none }
      ≠ resultKey { tool := "get_prices",
                    args := Json.jobj [("ticker", Json.jstr "TSLA")],
                    data := Json.jnull, sourceUrls := Json.jarr [],
                    error := none } := by
  have h := resultKey_merge_scheme
    { tool := "get_prices", args := Json.jobj [("ticker", Json.jstr "AAPL")],
      data := Json.jnull, sourceUrls := Json.jarr [], error := none }
    { tool := "get_prices", args := Json.jobj [("ticker", Json.jstr "TSLA")],
      data := Json.jnull, sourceUrls := Json.jarr [], error := none }
    "AAPL" "TSLA" rfl rfl rfl (by simp) (by simp) (by simp)
  exact ⟨h.1, h.2.1, h.2.2.1⟩

/-- C10: a successful result whose `ticker` argument is the empty string is
keyed by the bare tool name, exactly as when no `ticker` argument was
supplied: truthiness, not key existence, decides the key shape. -/
theorem resultKey_empty_string_ticker
    (r r0 : ExecutionResult)
    (h : r.args.objGet "ticker" = Json.jstr "")
    (h0 : r0.args.objGet "ticker" = Json.jundefined)
    (htool : r0.tool = r.tool) :
    resultKey r = r.tool ∧ resultKey r = resultKey r0 := by
  have h1 : resultKey r = r.tool := by
    simp [resultKey, h, Json.truthy]
  have h2 : resultKey r0 = r0.tool := by
    simp [resultKey, h0, Json.truthy]
  exact ⟨h1, by rw [h1, h2, htool]⟩

/-- Witness for C10 at a concrete empty-string-ticker result. -/
theorem resultKey_empty_string_ticker_witness :
    resultKey { tool := "get_prices",
                args := Json.jobj [("ticker", Json.jstr "")],
                data := Json.jnull, sourceUrls := Json.jarr [],
                error := none } = "get_prices" :=
  (resultKey_empty_string_ticker
    { tool := "get_prices", args := Json.jobj [("ticker", Json.jstr "")],
      data := Json.jnull, sourceUrls := Json.jarr [], error := none }
    { tool := "get_prices", args := Json.jobj [],
      data := Json.jnull, sourceUrls := Json.jarr [], error := none }
    rfl rfl rfl).1

/-- A per-item result with an error always carries an empty `sourceUrls`
array: both catch branches of the executor write `sourceUrls: []`. -/
theorem execToolCall_failed_sourceUrls_empty
    (tools : List Tool) (tc : ToolCall)
    (h : (execToolCall tools tc).error.isSome) :
    (execToolCall tools tc).sourceUrls = Json.jarr [] := by
  cases hf : FINANCE_TOOL_MAP_get tools tc.name with
  | none => simp [execToolCall, hf]
  | some t =>
    cases hi : t.invoke tc.args with
    | error e => simp [execToolCall, hf, hi]
    | ok parsed => simp [execToolCall, hf, hi] at h

/-- Dropping results that contribute no URLs does not change the
concatenation. -/
theorem flatMap_urls_filter
    (rs : List ExecutionResult)
    (h : ∀ r ∈ rs, r.error.isSome → r.sourceUrls = Json.jarr []) :
    rs.flatMap (fun r => r.sourceUrls.flattenOne)
      = (rs.filter (fun r => r.error.isNone)).flatMap
          (fun r => r.sourceUrls.flattenOne) := by
  induction rs with
  | nil => rfl
  | cons r rest ih =>
    have hr := h r (List.mem_cons_self r rest)
    have hrest : ∀ r' ∈ rest, r'.error.isSome → r'.sourceUrls = Json.jarr [] :=
      fun r' hm => h r' (List.mem_cons_of_mem r hm)
    cases he : r.error with
    | none =>
      simp only [List.flatMap_cons, List.filter_cons]
      simp [he, ih hrest]
    | some e =>
      have hempty : r.sourceUrls = Json.jarr [] := hr (by simp [he])
      simp only [List.flatMap_cons, List.filter_cons, he, hempty]
      simpa [Json.flattenOne] using ih hrest

/-- C6: the aggregated `sourceUrls` is the concatenation of every result's
`sourceUrls` in batch order (duplicates permitted); every failed
invocation contributes no URLs, so the concatenation equals the one taken
over successful results only. -/
theorem aggregate_sourceUrls_concatenation
    (tools : List Tool) (tcs : List ToolCall) :
    (aggregateResults (tcs.map (execToolCall tools))).sourceUrls
      = (tcs.map (execToolCall tools)).flatMap (fun r => r.sourceUrls.flattenOne) ∧
    (∀ r ∈ tcs.map (execToolCall tools), r.error.isSome →
      r.sourceUrls = Json.jarr []) ∧
    (tcs.map (execToolCall tools)).flatMap (fun r => r.sourceUrls.flattenOne)
      = ((tcs.map (execToolCall tools)).filter (fun r => r.error.isNone)).flatMap
          (fun r => r.sourceUrls.flattenOne) := by
  have hfail : ∀ r ∈ tcs.map (execToolCall tools), r.error.isSome →
      r.sourceUrls = Json.jarr [] := by
    intro r hm hs
    obtain ⟨tc, _, rfl⟩ := List.mem_map.mp hm
    exact execToolCall_failed_sourceUrls_empty tools tc hs
  refine ⟨?_, hfail, flatMap_urls_filter _ hfail⟩
  simp [aggregateResults, formatToolResult]

/-- The `tool` field of a per-item result is always the call's name. -/
theorem execToolCall_tool_eq (tools : List Tool) (tc : ToolCall) :
    (execToolCall tools tc).tool = tc.name := by
  cases hf : FINANCE_TOOL_MAP_get tools tc.name with
  | none => simp [execToolCall, hf]
  | some t =>
    cases hi : t.invoke tc.args with
    | error e => simp [execToolCall, hf, hi]
    | ok parsed => simp [execToolCall, hf, hi]

/-- A successful per-item result names a registered tool. -/
theorem execToolCall_success_name_registered
    (tools : List Tool) (tc : ToolCall)
    (h : (execToolCall tools tc).error = none) :
    ∃ t ∈ tools, t.name = tc.name := by
  cases hf : FINANCE_TOOL_MAP_get tools tc.name with
  | none => simp [execToolCall, hf] at h
  | some t =>
    refine ⟨t, ?_, ?_⟩
    · have hm := List.mem_of_find?_eq_some hf
      simpa using hm
    · have hp := List.find?_some hf
      simpa using hp

/-- The merge key of a successful result is never the reserved key
`"_errors"`, as long as no registered tool is named `""` or `"_errors"`
(true of the fixed finance registry). -/
theorem execToolCall_success_key_ne
    (tools : List Tool) (tc : ToolCall)
    (hnames : ∀ t ∈ tools, t.name ≠ "" ∧ t.name ≠ "_errors")
    (h : (execToolCall tools tc).error = none) :
    resultKey (execToolCall tools tc) ≠ "_errors" := by
  obtain ⟨t, hmem, hname⟩ := execToolCall_success_name_registered tools tc h
  obtain ⟨hne, hneerr⟩ := hnames t hmem
  have htool : (execToolCall tools tc).tool = tc.name := execToolCall_tool_eq tools tc
  unfold resultKey
  by_cases ht : ((execToolCall tools tc).args.objGet "ticker").truthy
  · simp only [ht, if_true]
    exact string_underscore_key_ne _ _ (by rw [htool, ← hname]; exact hne)
  · simp only [ht, Bool.false_eq_true, if_false]
    rw [htool, ← hname]; exact hneerr

/-- Reading back the key just assigned returns the assigned value
(JavaScript last-write-wins). -/
theorem fieldsGet_append_single
    (fields : List (String × Json)) (k : String) (v : Json) :
    Json.fieldsGet (fields ++ [(k, v)]) k = v := by
  simp [Json.fieldsGet, List.find?]

/-- The merge loop of the executor appends one binding per successful
result, in order. -/
theorem foldl_objSet_eq
    (rs : List ExecutionResult) (init : List (String × Json)) :
    rs.foldl (fun acc r => Json.objSet acc (resultKey r) r.data) init
      = init ++ rs.map (fun r => (resultKey r, r.data)) := by
  induction rs generalizing init with
  | nil => simp
  | cons r rest ih =>
    rw [List.foldl_cons, ih]
    simp [Json.objSet]

/-- General shape of the merged response object: the `_errors` binding is
present exactly when failures exist, it holds the per-failure records, and
every successful result keeps a binding under its own merge key (provided
no success key collides with the reserved `_errors` name). -/
theorem aggregate_errors_general
    (rs : List ExecutionResult)
    (hkey : ∀ r ∈ rs, r.error = none → resultKey r ≠ "_errors") :
    ((aggregateResults rs).data.hasKey "_errors" = true ↔
      rs.filter (fun r => r.error.isSome) ≠ []) ∧
    (rs.filter (fun r => r.error.isSome) ≠ [] →
      (aggregateResults rs).data.objGet "_errors"
        = Json.jarr ((rs.filter (fun r => r.error.isSome)).map errorEntry)) ∧
    (∀ r ∈ rs, r.error = none →
      (aggregateResults rs).data.hasKey (resultKey r) = true) := by
  have hdata : (aggregateResults rs).data
      = Json.jobj
          (if (rs.filter (fun r => r.error.isSome)).length > 0 then
            Json.objSet
              ((rs.filter (fun r => r.error.isNone)).foldl
                (fun acc r => Json.objSet acc (resultKey r) r.data) [])
              "_errors"
              (Json.jarr ((rs.filter (fun r => r.error.isSome)).map errorEntry))
          else
            (rs.filter (fun r => r.error.isNone)).foldl
              (fun acc r => Json.objSet acc (resultKey r) r.data) []) := rfl
  rw [foldl_objSet_eq (rs.filter (fun r => r.error.isNone)) [], List.nil_append] at hdata
  have hmem_pair : ∀ r ∈ rs, r.error = none →
      ((rs.filter (fun r => r.error.isNone)).map
        (fun r => (resultKey r, r.data))).any
        (fun p => p.1 == resultKey r) = true := by
    intro r hm he
    refine List.any_eq_true.mpr ⟨(resultKey r, r.data), ?_, by simp⟩
    exact List.mem_map_of_mem _ (List.mem_filter.mpr ⟨hm, by simp [he]⟩)
  by_cases hfe : rs.filter (fun r => r.error.isSome) = []
  · have hlen : ¬ (rs.filter (fun r => r.error.isSome)).length > 0 := by
      simp [hfe]
    rw [if_neg hlen] at hdata
    have hnokey : ((rs.filter (fun r => r.error.isNone)).map
        (fun r => (resultKey r, r.data))).any (fun p => p.1 == "_errors") = false := by
      rw [List.any_eq_false]
      rintro ⟨k, v⟩ hm
      obtain ⟨r, hrm, hpair⟩ := List.mem_map.mp hm
      obtain ⟨hrs, hre⟩ := List.mem_filter.mp hrm
      have hr0 : r.error = none := by simpa [Option.isNone_iff_eq_none] using hre
      have := hkey r hrs hr0
      simp only [Prod.mk.injEq] at hpair
      simp [← hpair.1, this]
    refine ⟨?_, fun hcon => absurd hfe hcon.elim, ?_⟩
    · rw [hdata]
      simp only [Json.hasKey, Json.fieldsHasKey]
      simp [hnokey, hfe]
    · intro r hm he
      rw [hdata]
      simp only [Json.hasKey, Json.fieldsHasKey]
      exact hmem_pair r hm he
  · have hlen : (rs.filter (fun r => r.error.isSome)).length > 0 :=
      List.length_pos.mpr hfe
    rw [if_pos hlen] at hdata
    refine ⟨?_, ?_, ?_⟩
    · rw [hdata]
      simp only [Json.hasKey, Json.objSet, Json.fieldsHasKey]
      simp [hfe]
    · intro _
      rw [hdata]
      simp only [Json.objGet, Json.objSet]
      exact fieldsGet_append_single _ _ _
    · intro r hm he
      rw [hdata]
      simp only [Json.hasKey, Json.objSet, Json.fieldsHasKey, List.any_append]
      rw [hmem_pair r hm he]
      simp

/-- C7: the merged response object has an `_errors` key if and only if at
least one per-item result failed; in that case `_errors` is the list of
one \x7btool, args, error\x7d record per failed result, and every successful
result in the same batch still appears under its own merge key. The only
side condition is that no registered tool is named `""` or `"_errors"`,
which holds of the fixed finance registry. -/
theorem aggregate_errors_key
    (tools : List Tool) (tcs : List ToolCall)
    (hnames : ∀ t ∈ tools, t.name ≠ "" ∧ t.name ≠ "_errors") :
    ((aggregateResults (tcs.map (execToolCall tools))).data.hasKey "_errors" = true ↔
      (tcs.map (execToolCall tools)).filter (fun r => r.error.isSome) ≠ []) ∧
    ((tcs.map (execToolCall tools)).filter (fun r => r.error.isSome) ≠ [] →
      (aggregateResults (tcs.map (execToolCall tools))).data.objGet "_errors"
        = Json.jarr (((tcs.map (execToolCall tools)).filter
            (fun r => r.error.isSome)).map errorEntry)) ∧
    (∀ r ∈ tcs.map (execToolCall tools), r.error = none →
      (aggregateResults (tcs.map (execToolCall tools))).data.hasKey
        (resultKey r) = true) := by
  apply aggregate_errors_general
  intro r hm he
  obtain ⟨tc, _, rfl⟩ := List.mem_map.mp hm
  exact execToolCall_success_key_ne tools tc hnames he

/-- Witness for C7: a batch with one success and one unknown-tool failure
produces an `_errors` binding. -/
theorem aggregate_errors_key_witness :
    (aggregateResults
      ([⟨"get_prices", Json.jobj []⟩, ⟨"nope", Json.jobj []⟩].map
        (execToolCall [⟨"get_prices", fun _ =>
          .ok (Json.jobj [("data", Json.jnum 7),
                          ("sourceUrls", Json.jarr [])])⟩]))).data.hasKey
      "_errors" = true := by
  refine (aggregate_errors_key
    [⟨"get_prices", fun _ =>
      .ok (Json.jobj [("data", Json.jnum 7), ("sourceUrls", Json.jarr [])])⟩]
    [⟨"get_prices", Json.jobj []⟩, ⟨"nope", Json.jobj []⟩] ?_).1.mpr ?_
  · intro t ht
    rw [List.mem_singleton] at ht
    subst ht
    exact ⟨by simp, by simp⟩
  · exact List.cons_ne_nil _ _

/-- Witness for C6: the aggregated URL list of a batch with one success
carrying one URL and one unknown-tool failure. -/
theorem aggregate_sourceUrls_concatenation_witness :
    (aggregateResults
      ([⟨"get_prices", Json.jobj []⟩, ⟨"nope", Json.jobj []⟩].map
        (execToolCall [⟨"get_prices", fun _ =>
          .ok (Json.jobj [("data", Json.jnum 7),
                          ("sourceUrls", Json.jarr [Json.jstr "u1"])])⟩]))).sourceUrls
      = [Json.jstr "u1"] :=
  (aggregate_sourceUrls_concatenation
    [⟨"get_prices", fun _ =>
      .ok (Json.jobj [("data", Json.jnum 7),
                      ("sourceUrls", Json.jarr [Json.jstr "u1"])])⟩]
    [⟨"get_prices", Json.jobj []⟩, ⟨"nope", Json.jobj []⟩]).1.trans rfl

/-- C8: a thrown LLM call yields a single top-level error envelope with
empty sourceUrls, independent of the registry (no tool call is ever
executed); an absent or empty tool-call list yields the distinct
no-tools-selected error envelope, likewise with no data keys and no
adapter invocation; and the two error messages are distinct. -/
theorem financialSearch_llm_failure_and_empty
    (tools : List Tool) (llm : String → LlmOutcome) (query : String)
    (e : String) :
    (llm query = .failure e →
      financialSearch tools llm query =
        ⟨Json.jobj [("error", Json.jstr ("LLM call failed: " ++ e))], []⟩) ∧
    ((llm query = .message none ∨ llm query = .message (some [])) →
      financialSearch tools llm query =
        ⟨Json.jobj [("error", Json.jstr "No tools selected for query")], []⟩) ∧
    ("LLM call failed: " ++ e) ≠ "No tools selected for query" := by
  refine ⟨?_, ?_, ?_⟩
  · intro h
    simp [financialSearch, h, formatToolResult]
  · rintro (h | h) <;> simp [financialSearch, h, formatToolResult]
  · intro h
    have hd := congrArg String.data h
    simp [String.data_append] at hd

/-- Witness for C8 at a throwing LLM stub. -/
theorem financialSearch_llm_failure_witness :
    financialSearch [] (fun _ => LlmOutcome.failure "boom") "q" =
      ⟨Json.jobj [("error", Json.jstr "LLM call failed: boom")], []⟩ :=
  (financialSearch_llm_failure_and_empty []
    (fun _ => LlmOutcome.failure "boom") "q" "boom").1 rfl

/-- C9: a successful invocation whose parsed envelope lacks a `sourceUrls`
field, or carries a falsy one, is recorded with the empty URL array, so
its contribution to the aggregated URL concatenation is empty rather than
undefined. -/
theorem execToolCall_missing_sourceUrls
    (tools : List Tool) (tc : ToolCall) (t : Tool) (parsed : Json)
    (hfind : FINANCE_TOOL_MAP_get tools tc.name = some t)
    (hinv : t.invoke tc.args = .ok parsed)
    (hfalsy : (parsed.objGet "sourceUrls").truthy = false) :
    (execToolCall tools tc).sourceUrls = Json.jarr [] ∧
    (execToolCall tools tc).sourceUrls.flattenOne = ([] : List Json) := by
  have h1 : (execToolCall tools tc).sourceUrls = Json.jarr [] := by
    simp [execToolCall, hfind, hinv, hfalsy]
  exact ⟨h1, by rw [h1]; rfl⟩

/-- Witness for C9: an envelope with a `data` field but no `sourceUrls`
field normalizes to the empty URL array. -/
theorem execToolCall_missing_sourceUrls_witness :
    (execToolCall
      [⟨"get_news", fun _ => .ok (Json.jobj [("data", Json.jnull)])⟩]
      ⟨"get_news", Json.jobj []⟩).sourceUrls = Json.jarr [] :=
  (execToolCall_missing_sourceUrls
    [⟨"get_news", fun _ => .ok (Json.jobj [("data", Json.jnull)])⟩]
    ⟨"get_news", Json.jobj []⟩
    ⟨"get_news", fun _ => .ok (Json.jobj [("data", Json.jnull)])⟩
    (Json.jobj [("data", Json.jnull)]) rfl rfl rfl).1
